import Mathlib

/-!
Shallow embedding of `rax._src.lambdaweights.labeldiff_lambdaweight`.

A JAX array of shape `[..., list_size]` is embedded as a `BatchedArray`:
the leading batch dimensions `...` are recorded in `batchShape` and the
corresponding slices along the last axis are flattened, in row-major
order, into the outer list `lists`; each inner list is one length
`list_size` slice.  The pairwise output of shape
`[..., list_size, list_size]` is embedded likewise as a `BatchedMatrix`.
Exact-arithmetic claims are read over `ℚ` (the spec's data model calls
label values arbitrary reals); floating-point special values are
modelled by the carrier `FP` (rationals extended with `nan` and signed
infinities, with IEEE-754 propagation rules for subtraction, absolute
value and comparison).

Python exception propagation is modelled by an `Except` result: the
body of `labeldiff_lambdaweight` is `del scores, where, weights` (a
no-op on values) followed by `jnp.abs(utils.compute_pairs(labels,
operator.sub))`; neither operation combines two input arrays, so no
broadcasting error can arise and the translation returns `.ok`
unconditionally.
-/

/-- A batched numeric array of shape `batchShape ++ [listSize]`:
`lists` holds the flattened leading dimensions, one inner list per
batch position. -/
structure BatchedArray (α : Type) where
  batchShape : List Nat
  listSize : Nat
  lists : List (List α)

/-- The array metadata is consistent with the data: the flattened batch
has `batchShape.prod` slices, each of length `listSize`. -/
def BatchedArray.WF {α : Type} (t : BatchedArray α) : Prop :=
  t.lists.length = t.batchShape.prod ∧ ∀ l ∈ t.lists, l.length = t.listSize

/-- The full JAX shape `[..., list_size]` of a batched array. -/
def BatchedArray.shape {α : Type} (t : BatchedArray α) : List Nat :=
  t.batchShape ++ [t.listSize]

/-- A batched matrix of shape `batchShape ++ [rows, cols]`, the result
type of a pairwise combination. -/
structure BatchedMatrix (α : Type) where
  batchShape : List Nat
  rows : Nat
  cols : Nat
  mats : List (List (List α))

/-- Metadata/data consistency for a batched matrix. -/
def BatchedMatrix.WF {α : Type} (m : BatchedMatrix α) : Prop :=
  m.mats.length = m.batchShape.prod ∧
    ∀ a ∈ m.mats, a.length = m.rows ∧ ∀ r ∈ a, r.length = m.cols

/-- The full JAX shape `[..., rows, cols]` of a batched matrix. -/
def BatchedMatrix.shape {α : Type} (m : BatchedMatrix α) : List Nat :=
  m.batchShape ++ [m.rows, m.cols]

/-- The entry of a batched matrix at flattened batch position `b`, row
`i`, column `j`; `d` is returned out of range (JAX indexing never
reaches that case on well-formed data). -/
def BatchedMatrix.entry {α : Type} (m : BatchedMatrix α) (d : α) (b i j : Nat) : α :=
  ((m.mats.getD b []).getD i []).getD j d

/-- Modelled from the spec: `rax._src.utils.compute_pairs` is not under
`src/`.  Spec §6: given an array of shape `[..., n]` and a binary
operator, produce an array of shape `[..., n, n]` where entry
`[..., i, j] = binary_op(array[..., i], array[..., j])`. -/
def compute_pairs {α : Type} (a : BatchedArray α) (op : α → α → α) : BatchedMatrix α :=
  ⟨a.batchShape, a.listSize, a.listSize,
    a.lists.map (fun l => l.map (fun x => l.map (fun y => op x y)))⟩

/-- The elementwise absolute value the array engine provides for a
scalar carrier: `|·|` on `ℚ`, the IEEE-754 rule on `FP`. -/
class JnpAbs (α : Type) where
  jabs : α → α

instance : JnpAbs ℚ := ⟨fun q => if q < 0 then -q else q⟩

/-- The executable rational absolute value agrees with Mathlib's `|·|`. -/
theorem jabs_rat_eq_abs (q : ℚ) : JnpAbs.jabs q = |q| := by
  by_cases h : q < 0
  · simp [JnpAbs.jabs, h, abs_of_neg h]
  · simp [JnpAbs.jabs, h, abs_of_nonneg (le_of_not_lt h)]

/-- Elementwise `jnp.abs` on a batched matrix. -/
def jnp_abs {α : Type} [JnpAbs α] (m : BatchedMatrix α) : BatchedMatrix α :=
  ⟨m.batchShape, m.rows, m.cols, m.mats.map (List.map (List.map JnpAbs.jabs))⟩

/-- Embedding of `rax._src.lambdaweights.labeldiff_lambdaweight`: the body is
`del scores, where, weights  # Unused.` followed by
`return jnp.abs(utils.compute_pairs(labels, operator.sub))`.
The `Except` layer models Python exception propagation; since no
operation of the body combines `scores`, `where_` or `weights` with
`labels`, no array-engine error can occur and the result is `.ok`. -/
def labeldiff_lambdaweight {α : Type} [Sub α] [JnpAbs α]
    (scores : BatchedArray α) (labels : BatchedArray α)
    (where_ : Option (BatchedArray Bool)) (weights : Option (BatchedArray α)) :
    Except String (BatchedMatrix α) :=
  .ok (jnp_abs (compute_pairs labels (fun x y => x - y)))

/-- Whether a call returned normally (no Python exception). -/
def lw_ok {α : Type} (r : Except String (BatchedMatrix α)) : Bool :=
  match r with
  | .ok _ => true
  | .error _ => false

/-- The entry of a call's result at batch `b`, row `i`, column `j`;
`d` out of range or on error. -/
def lw_entry {α : Type} (r : Except String (BatchedMatrix α)) (d : α) (b i j : Nat) : α :=
  match r with
  | .ok m => m.entry d b i j
  | .error _ => d

/-- NumPy/JAX broadcast compatibility of two shapes, on the reversed
(right-aligned) dimension lists: each aligned pair of sizes must be
equal or contain a 1. -/
def broadcastCompatibleRev : List Nat → List Nat → Bool
  | [], _ => true
  | _, [] => true
  | a :: as, b :: bs => (a == b || a == 1 || b == 1) && broadcastCompatibleRev as bs

/-- NumPy/JAX broadcast compatibility of two shapes. -/
def broadcastCompatible (s1 s2 : List Nat) : Bool :=
  broadcastCompatibleRev s1.reverse s2.reverse

/-- An IEEE-754-style scalar: a finite value (exact, rounding ignored),
a signed infinity, or `nan`. -/
inductive FP : Type
  | nan : FP
  | inf : FP
  | neginf : FP
  | fin : ℚ → FP
deriving DecidableEq

/-- IEEE-754 subtraction on `FP` (finite arithmetic exact): `nan`
propagates; `∞ - ∞ = nan`; infinities dominate finite values. -/
def FP.sub : FP → FP → FP
  | .nan, _ => .nan
  | _, .nan => .nan
  | .inf, .inf => .nan
  | .inf, _ => .inf
  | .neginf, .neginf => .nan
  | .neginf, _ => .neginf
  | .fin _, .inf => .neginf
  | .fin _, .neginf => .inf
  | .fin a, .fin b => .fin (a - b)

/-- IEEE-754 absolute value on `FP`: `nan` propagates, `|±∞| = ∞`. -/
def FP.abs : FP → FP
  | .nan => .nan
  | .inf => .inf
  | .neginf => .inf
  | .fin a => .fin |a|

/-- IEEE-754 ordered comparison `x <= y`: any comparison involving
`nan` is false. -/
def FP.le : FP → FP → Bool
  | .nan, _ => false
  | _, .nan => false
  | .neginf, _ => true
  | _, .neginf => false
  | _, .inf => true
  | .inf, _ => false
  | .fin a, .fin b => decide (a ≤ b)

/-- Whether an `FP` value is finite (neither `nan` nor an infinity). -/
def FP.isFinite : FP → Bool
  | .fin _ => true
  | _ => false

instance : Sub FP := ⟨FP.sub⟩

instance : JnpAbs FP := ⟨FP.abs⟩

/-- Adding the same constant to every entry of a batched array
(`labels + c`). -/
def BatchedArray.addConst {α : Type} [Add α] (t : BatchedArray α) (c : α) : BatchedArray α :=
  ⟨t.batchShape, t.listSize, t.lists.map (List.map (fun x => x + c))⟩

/-- Replacing the entry at batch position `b`, item position `p` of a
batched array with `v`. -/
def BatchedArray.setEntry {α : Type} (t : BatchedArray α) (b p : Nat) (v : α) : BatchedArray α :=
  ⟨t.batchShape, t.listSize, t.lists.set b ((t.lists.getD b []).set p v)⟩

/-! ### Helper lemmas: entry characterization of the pairwise result -/

/-- In-range entry of the fused map structure produced by
`jnp.abs ∘ compute_pairs`. -/
theorem pairmap_getD {α : Type} (f : α → α → α) (g : α → α) (l : List α) (d d0 : α)
    (i j : Nat) (hi : i < l.length) (hj : j < l.length) :
    ((((l.map (fun x => l.map (fun y => f x y))).map (List.map g)).getD i []).getD j d)
      = g (f (l.getD i d0) (l.getD j d0)) := by
  simp [List.getD_eq_getElem?_getD, List.getElem?_map,
    List.getElem?_eq_getElem hi, List.getElem?_eq_getElem hj]

/-- In-range entries of a `labeldiff_lambdaweight` call are the
absolute label differences. -/
theorem lw_entry_eq_of_lt {α : Type} [Sub α] [JnpAbs α]
    (scores labels : BatchedArray α) (where_ : Option (BatchedArray Bool))
    (weights : Option (BatchedArray α)) (d d0 : α) (b i j : Nat)
    (hb : b < labels.lists.length)
    (hi : i < (labels.lists.getD b []).length)
    (hj : j < (labels.lists.getD b []).length) :
    lw_entry (labeldiff_lambdaweight scores labels where_ weights) d b i j =
      JnpAbs.jabs ((labels.lists.getD b []).getD i d0 - (labels.lists.getD b []).getD j d0) := by
  have he : labels.lists.getD b [] = labels.lists[b] := List.getD_eq_getElem _ _ hb
  rw [he] at hi hj ⊢
  simp only [lw_entry, labeldiff_lambdaweight, jnp_abs, compute_pairs,
    BatchedMatrix.entry]
  simp [List.getD_eq_getElem?_getD, List.getElem?_map,
    List.getElem?_eq_getElem hb, List.getElem?_eq_getElem hi, List.getElem?_eq_getElem hj]

/-- Out-of-range batch index: the default is returned. -/
theorem lw_entry_default_of_batch_ge {α : Type} [Sub α] [JnpAbs α]
    (scores labels : BatchedArray α) (where_ : Option (BatchedArray Bool))
    (weights : Option (BatchedArray α)) (d : α) (b i j : Nat)
    (hb : labels.lists.length ≤ b) :
    lw_entry (labeldiff_lambdaweight scores labels where_ weights) d b i j = d := by
  have hb2 : labels.lists[b]? = none := List.getElem?_eq_none hb
  simp only [lw_entry, labeldiff_lambdaweight, jnp_abs, compute_pairs,
    BatchedMatrix.entry]
  simp [List.getD_eq_getElem?_getD, List.getElem?_map, hb2]

/-- Out-of-range row index: the default is returned. -/
theorem lw_entry_default_of_row_ge {α : Type} [Sub α] [JnpAbs α]
    (scores labels : BatchedArray α) (where_ : Option (BatchedArray Bool))
    (weights : Option (BatchedArray α)) (d : α) (b i j : Nat)
    (hb : b < labels.lists.length)
    (hi : (labels.lists.getD b []).length ≤ i) :
    lw_entry (labeldiff_lambdaweight scores labels where_ weights) d b i j = d := by
  have he : labels.lists.getD b [] = labels.lists[b] := List.getD_eq_getElem _ _ hb
  rw [he] at hi
  have hi2 : labels.lists[b][i]? = none := List.getElem?_eq_none hi
  simp only [lw_entry, labeldiff_lambdaweight, jnp_abs, compute_pairs,
    BatchedMatrix.entry]
  simp [List.getD_eq_getElem?_getD, List.getElem?_map,
    List.getElem?_eq_getElem hb, hi2]

/-- Out-of-range column index: the default is returned. -/
theorem lw_entry_default_of_col_ge {α : Type} [Sub α] [JnpAbs α]
    (scores labels : BatchedArray α) (where_ : Option (BatchedArray Bool))
    (weights : Option (BatchedArray α)) (d : α) (b i j : Nat)
    (hb : b < labels.lists.length)
    (hi : i < (labels.lists.getD b []).length)
    (hj : (labels.lists.getD b []).length ≤ j) :
    lw_entry (labeldiff_lambdaweight scores labels where_ weights) d b i j = d := by
  have he : labels.lists.getD b [] = labels.lists[b] := List.getD_eq_getElem _ _ hb
  rw [he] at hi hj
  have hj2 : labels.lists[b][j]? = none := List.getElem?_eq_none hj
  simp only [lw_entry, labeldiff_lambdaweight, jnp_abs, compute_pairs,
    BatchedMatrix.entry]
  simp [List.getD_eq_getElem?_getD, List.getElem?_map,
    List.getElem?_eq_getElem hb, List.getElem?_eq_getElem hi, hj2]

/-! ### Claim theorems -/

/-- C1: For every labels array, every batch position `b` and every
ordered pair of indices `(i, j)` within the list (including `i = j`),
the entry of `labeldiff_lambdaweight scores labels where_ weights` at
batch `b`, row `i`, column `j` equals `|labels[b, i] - labels[b, j]|`. -/
theorem labeldiff_lambdaweight_entry_abs_sub
    (scores labels : BatchedArray ℚ) (where_ : Option (BatchedArray Bool))
    (weights : Option (BatchedArray ℚ)) (b i j : Nat)
    (hb : b < labels.lists.length)
    (hi : i < (labels.lists.getD b []).length)
    (hj : j < (labels.lists.getD b []).length) :
    lw_entry (labeldiff_lambdaweight scores labels where_ weights) 0 b i j =
      |(labels.lists.getD b []).getD i 0 - (labels.lists.getD b []).getD j 0| := by
  rw [lw_entry_eq_of_lt scores labels where_ weights 0 0 b i j hb hi hj, jabs_rat_eq_abs]

/-- Witness for C1 on spec Scenario 1 (`labels = [1, 2, 0]`): the
`(1, 2)` entry equals `|2 - 0|`. -/
theorem labeldiff_lambdaweight_entry_abs_sub_witness :
    lw_entry (labeldiff_lambdaweight (⟨[], 3, [[(9 : ℚ), 9, 9]]⟩ : BatchedArray ℚ)
        (⟨[], 3, [[(1 : ℚ), 2, 0]]⟩ : BatchedArray ℚ) none none) 0 0 1 2 =
      |((⟨[], 3, [[(1 : ℚ), 2, 0]]⟩ : BatchedArray ℚ).lists.getD 0 []).getD 1 0 -
        ((⟨[], 3, [[(1 : ℚ), 2, 0]]⟩ : BatchedArray ℚ).lists.getD 0 []).getD 2 0| :=
  labeldiff_lambdaweight_entry_abs_sub ⟨[], 3, [[(9 : ℚ), 9, 9]]⟩
    ⟨[], 3, [[(1 : ℚ), 2, 0]]⟩ none none 0 1 2 (by decide) (by decide) (by decide)

/-- C2: the output of `labeldiff_lambdaweight` depends only on
`labels`: two calls agreeing on `labels` but with arbitrary different
`scores`, `where_` and `weights` return equal results. -/
theorem labeldiff_lambdaweight_ignores_scores_where_weights
    (scores1 scores2 labels : BatchedArray ℚ)
    (where1 where2 : Option (BatchedArray Bool))
    (weights1 weights2 : Option (BatchedArray ℚ)) :
    labeldiff_lambdaweight scores1 labels where1 weights1 =
      labeldiff_lambdaweight scores2 labels where2 weights2 := rfl

/-- C3 counterexample: `scores` of shape `[2]` and `labels` of shape
`[3]` are not broadcast-compatible, yet the call returns normally
instead of raising: the claim's "raises if the shapes are
broadcast-incompatible" direction is false, because `scores` is
discarded before any use. -/
theorem labeldiff_lambdaweight_incompatible_scores_no_error :
    broadcastCompatible
        (BatchedArray.shape (⟨[], 2, [[(1 : ℚ), 2]]⟩ : BatchedArray ℚ))
        (BatchedArray.shape (⟨[], 3, [[(1 : ℚ), 2, 0]]⟩ : BatchedArray ℚ)) = false ∧
    lw_ok (labeldiff_lambdaweight (⟨[], 2, [[(1 : ℚ), 2]]⟩ : BatchedArray ℚ)
        (⟨[], 3, [[(1 : ℚ), 2, 0]]⟩ : BatchedArray ℚ) none none) = true :=
  ⟨rfl, rfl⟩

/-- C3 amended: `labeldiff_lambdaweight` never raises, for any
`scores` and `labels` shapes whatsoever (broadcast-compatible or not):
`scores` is discarded before any use, so no shape-mismatch error can
occur. -/
theorem labeldiff_lambdaweight_never_raises
    (scores labels : BatchedArray ℚ) (where_ : Option (BatchedArray Bool))
    (weights : Option (BatchedArray ℚ)) :
    lw_ok (labeldiff_lambdaweight scores labels where_ weights) = true := rfl

/-- C4: for every labels array, every batch position and every index
`i`, the diagonal entry at `[b, i, i]` of the output is zero. -/
theorem labeldiff_lambdaweight_diag_zero
    (scores labels : BatchedArray ℚ) (where_ : Option (BatchedArray Bool))
    (weights : Option (BatchedArray ℚ)) (b i : Nat) :
    lw_entry (labeldiff_lambdaweight scores labels where_ weights) 0 b i i = 0 := by
  rcases Nat.lt_or_ge b labels.lists.length with hb | hb
  · rcases Nat.lt_or_ge i (labels.lists.getD b []).length with hi | hi
    · rw [lw_entry_eq_of_lt scores labels where_ weights 0 0 b i i hb hi hi,
        jabs_rat_eq_abs, sub_self, abs_zero]
    · exact lw_entry_default_of_row_ge scores labels where_ weights 0 b i i hb hi
  · exact lw_entry_default_of_batch_ge scores labels where_ weights 0 b i i hb

/-- C5: the output of `labeldiff_lambdaweight` is symmetric: the entry
at `[b, i, j]` equals the entry at `[b, j, i]`. -/
theorem labeldiff_lambdaweight_symm
    (scores labels : BatchedArray ℚ) (where_ : Option (BatchedArray Bool))
    (weights : Option (BatchedArray ℚ)) (b i j : Nat) :
    lw_entry (labeldiff_lambdaweight scores labels where_ weights) 0 b i j =
      lw_entry (labeldiff_lambdaweight scores labels where_ weights) 0 b j i := by
  rcases Nat.lt_or_ge b labels.lists.length with hb | hb
  · rcases Nat.lt_or_ge i (labels.lists.getD b []).length with hi | hi <;>
      rcases Nat.lt_or_ge j (labels.lists.getD b []).length with hj | hj
    · rw [lw_entry_eq_of_lt scores labels where_ weights 0 0 b i j hb hi hj,
        lw_entry_eq_of_lt scores labels where_ weights 0 0 b j i hb hj hi,
        jabs_rat_eq_abs, jabs_rat_eq_abs, abs_sub_comm]
    · rw [lw_entry_default_of_col_ge scores labels where_ weights 0 b i j hb hi hj,
        lw_entry_default_of_row_ge scores labels where_ weights 0 b j i hb hj]
    · rw [lw_entry_default_of_row_ge scores labels where_ weights 0 b i j hb hi,
        lw_entry_default_of_col_ge scores labels where_ weights 0 b j i hb hj hi]
    · rw [lw_entry_default_of_row_ge scores labels where_ weights 0 b i j hb hi,
        lw_entry_default_of_row_ge scores labels where_ weights 0 b j i hb hj]
  · rw [lw_entry_default_of_batch_ge scores labels where_ weights 0 b i j hb,
      lw_entry_default_of_batch_ge scores labels where_ weights 0 b j i hb]

/-- C7: `labeldiff_lambdaweight` never raises on account of `where_`
or `weights`: for every `where_` and `weights` value, of any shape
whatsoever (compatible with `labels` or not), the call returns a
normal result, because both arguments are discarded before any use. -/
theorem labeldiff_lambdaweight_ok_any_where_weights
    (scores labels : BatchedArray ℚ) (where_ : Option (BatchedArray Bool))
    (weights : Option (BatchedArray ℚ)) :
    ∃ m : BatchedMatrix ℚ,
      labeldiff_lambdaweight scores labels where_ weights = .ok m ∧
      labeldiff_lambdaweight scores labels none none = .ok m :=
  ⟨_, rfl, rfl⟩

/-- C6: for every well-formed labels array of shape `[..., n]`, the
call returns a well-formed matrix of shape
`input_shape[:-1] ++ [n, n]` where `n = labels.listSize`. -/
theorem labeldiff_lambdaweight_shape
    (scores labels : BatchedArray ℚ) (where_ : Option (BatchedArray Bool))
    (weights : Option (BatchedArray ℚ)) (hWF : labels.WF) :
    ∃ m : BatchedMatrix ℚ,
      labeldiff_lambdaweight scores labels where_ weights = .ok m ∧
      m.shape = labels.shape.dropLast ++ [labels.listSize, labels.listSize] ∧
      m.WF := by
  refine ⟨_, rfl, ?_, ?_, ?_⟩
  · simp [labeldiff_lambdaweight, jnp_abs, compute_pairs, BatchedMatrix.shape,
      BatchedArray.shape]
  · simpa [labeldiff_lambdaweight, jnp_abs, compute_pairs] using hWF.1
  · intro a ha
    simp only [labeldiff_lambdaweight, jnp_abs, compute_pairs, List.map_map,
      List.mem_map, Function.comp] at ha
    obtain ⟨l, hl, rfl⟩ := ha
    refine ⟨by simp [jnp_abs, compute_pairs, hWF.2 l hl], ?_⟩
    intro r hr
    simp only [List.map_map, List.mem_map, Function.comp] at hr
    obtain ⟨x, hx, rfl⟩ := hr
    simp [jnp_abs, compute_pairs, hWF.2 l hl]

/-- Witness for C6 on a batched input of shape `[2, 2]`. -/
theorem labeldiff_lambdaweight_shape_witness :
    ∃ m : BatchedMatrix ℚ,
      labeldiff_lambdaweight (⟨[2], 2, [[(0 : ℚ), 0], [0, 0]]⟩ : BatchedArray ℚ)
          (⟨[2], 2, [[(1 : ℚ), 2], [3, 3]]⟩ : BatchedArray ℚ) none none = .ok m ∧
      m.shape = (BatchedArray.shape (⟨[2], 2, [[(1 : ℚ), 2], [3, 3]]⟩ :
          BatchedArray ℚ)).dropLast ++ [2, 2] ∧
      m.WF :=
  labeldiff_lambdaweight_shape ⟨[2], 2, [[(0 : ℚ), 0], [0, 0]]⟩
    ⟨[2], 2, [[(1 : ℚ), 2], [3, 3]]⟩ none none (by constructor <;> decide)

/-- Pairwise subtraction is unchanged when the same constant is added
to every element of the list. -/
theorem compute_pairs_sub_addConst (c : ℚ) (l : List ℚ) :
    (l.map (fun z => z + c)).map
        (fun x => (l.map (fun z => z + c)).map (fun y => x - y)) =
      l.map (fun x => l.map (fun y => x - y)) := by
  rw [List.map_map]
  apply List.map_congr_left
  intro x _
  simp only [Function.comp]
  rw [List.map_map]
  apply List.map_congr_left
  intro y _
  simp only [Function.comp]
  ring

/-- C10: `labeldiff_lambdaweight` is invariant under uniform label
translation: evaluating it on `labels + c` yields the same output as
evaluating it on `labels`. -/
theorem labeldiff_lambdaweight_translation_invariant
    (scores labels : BatchedArray ℚ) (c : ℚ)
    (where_ : Option (BatchedArray Bool)) (weights : Option (BatchedArray ℚ)) :
    labeldiff_lambdaweight scores (labels.addConst c) where_ weights =
      labeldiff_lambdaweight scores labels where_ weights := by
  simp only [labeldiff_lambdaweight, jnp_abs, compute_pairs, BatchedArray.addConst,
    List.map_map]
  congr 1
  congr 1
  apply List.map_congr_left
  intro l _
  simp only [Function.comp]
  rw [compute_pairs_sub_addConst]

/-! ### Floating-point special-value lemmas -/

theorem FP.nan_sub (x : FP) : FP.nan - x = FP.nan := by cases x <;> rfl

theorem FP.sub_nan (x : FP) : x - FP.nan = FP.nan := by cases x <;> rfl

theorem FP.jabs_nan : JnpAbs.jabs FP.nan = FP.nan := rfl

theorem FP.sub_fin_fin (a b : ℚ) : FP.fin a - FP.fin b = FP.fin (a - b) := rfl

theorem FP.jabs_fin (q : ℚ) : JnpAbs.jabs (FP.fin q) = FP.fin |q| := rfl

theorem FP.le_fin_fin (a b : ℚ) : FP.le (.fin a) (.fin b) = decide (a ≤ b) := rfl

/-- Reading with `getD` after an update at a different position is
unchanged, in or out of range. -/
theorem getD_set_ne {α : Type} (l : List α) (p i : Nat) (v d : α) (h : p ≠ i) :
    (l.set p v).getD i d = l.getD i d := by
  simp [List.getD_eq_getElem?_getD, List.getElem?_set_ne h]

/-- C8: a `nan` label at position `p` of batch `b` makes every output
entry of that batch whose row or column index is `p` equal to `nan`;
entries whose row and column both differ from `p` are unchanged when
position `p` is replaced by any finite value; the call never raises on
special values. -/
theorem labeldiff_lambdaweight_nan_propagation
    (scores labels : BatchedArray FP) (where_ : Option (BatchedArray Bool))
    (weights : Option (BatchedArray FP)) (b p : Nat)
    (hb : b < labels.lists.length)
    (hp : p < (labels.lists.getD b []).length)
    (hnan : (labels.lists.getD b []).getD p (.fin 0) = .nan) :
    (∀ i, i < (labels.lists.getD b []).length →
        lw_entry (labeldiff_lambdaweight scores labels where_ weights) (.fin 0) b p i =
          .nan ∧
        lw_entry (labeldiff_lambdaweight scores labels where_ weights) (.fin 0) b i p =
          .nan) ∧
    (∀ c : ℚ, ∀ i j : Nat, i ≠ p → j ≠ p →
        lw_entry (labeldiff_lambdaweight scores (labels.setEntry b p (.fin c))
            where_ weights) (.fin 0) b i j =
          lw_entry (labeldiff_lambdaweight scores labels where_ weights) (.fin 0) b i j) ∧
    lw_ok (labeldiff_lambdaweight scores labels where_ weights) = true := by
  refine ⟨?_, ?_, rfl⟩
  · intro i hi
    constructor
    · rw [lw_entry_eq_of_lt scores labels where_ weights (.fin 0) (.fin 0) b p i hb hp hi,
        hnan, FP.nan_sub, FP.jabs_nan]
    · rw [lw_entry_eq_of_lt scores labels where_ weights (.fin 0) (.fin 0) b i p hb hi hp,
        hnan, FP.sub_nan, FP.jabs_nan]
  · intro c i j hip hjp
    set labels2 := labels.setEntry b p (.fin c) with hdef
    have hbl : labels2.lists.length = labels.lists.length := by
      simp [hdef, BatchedArray.setEntry]
    have hb2 : b < labels2.lists.length := by rw [hbl]; exact hb
    have hl2 : labels2.lists.getD b [] = (labels.lists.getD b []).set p (FP.fin c) := by
      simp only [hdef, BatchedArray.setEntry]
      rw [List.getD_eq_getElem _ _ (by simpa using hb)]
      exact List.getElem_set_self (by simpa using hb)
    have hlen2 : (labels2.lists.getD b []).length = (labels.lists.getD b []).length := by
      rw [hl2, List.length_set]
    rcases Nat.lt_or_ge i (labels.lists.getD b []).length with hi | hi
    · rcases Nat.lt_or_ge j (labels.lists.getD b []).length with hj | hj
      · rw [lw_entry_eq_of_lt scores labels2 where_ weights (.fin 0) (.fin 0) b i j hb2
            (by rw [hlen2]; exact hi) (by rw [hlen2]; exact hj),
          lw_entry_eq_of_lt scores labels where_ weights (.fin 0) (.fin 0) b i j hb hi hj,
          hl2, getD_set_ne _ _ _ _ _ (Ne.symm hip), getD_set_ne _ _ _ _ _ (Ne.symm hjp)]
      · rw [lw_entry_default_of_col_ge scores labels2 where_ weights (.fin 0) b i j hb2
            (by rw [hlen2]; exact hi) (by rw [hlen2]; exact hj),
          lw_entry_default_of_col_ge scores labels where_ weights (.fin 0) b i j hb hi hj]
    · rw [lw_entry_default_of_row_ge scores labels2 where_ weights (.fin 0) b i j hb2
          (by rw [hlen2]; exact hi),
        lw_entry_default_of_row_ge scores labels where_ weights (.fin 0) b i j hb hi]

/-- Witness for C8: `labels = [nan, 1]`, `b = 0`, `p = 0`. -/
theorem labeldiff_lambdaweight_nan_propagation_witness :
    (∀ i, i < (((⟨[], 2, [[FP.nan, FP.fin 1]]⟩ : BatchedArray FP)).lists.getD 0 []).length →
        lw_entry (labeldiff_lambdaweight (⟨[], 2, [[FP.fin 0, FP.fin 0]]⟩ : BatchedArray FP)
            (⟨[], 2, [[FP.nan, FP.fin 1]]⟩ : BatchedArray FP) none none) (.fin 0) 0 0 i =
          .nan ∧
        lw_entry (labeldiff_lambdaweight (⟨[], 2, [[FP.fin 0, FP.fin 0]]⟩ : BatchedArray FP)
            (⟨[], 2, [[FP.nan, FP.fin 1]]⟩ : BatchedArray FP) none none) (.fin 0) 0 i 0 =
          .nan) ∧
    (∀ c : ℚ, ∀ i j : Nat, i ≠ 0 → j ≠ 0 →
        lw_entry (labeldiff_lambdaweight (⟨[], 2, [[FP.fin 0, FP.fin 0]]⟩ : BatchedArray FP)
            ((⟨[], 2, [[FP.nan, FP.fin 1]]⟩ : BatchedArray FP).setEntry 0 0 (.fin c))
            none none) (.fin 0) 0 i j =
          lw_entry (labeldiff_lambdaweight (⟨[], 2, [[FP.fin 0, FP.fin 0]]⟩ : BatchedArray FP)
            (⟨[], 2, [[FP.nan, FP.fin 1]]⟩ : BatchedArray FP) none none) (.fin 0) 0 i j) ∧
    lw_ok (labeldiff_lambdaweight (⟨[], 2, [[FP.fin 0, FP.fin 0]]⟩ : BatchedArray FP)
        (⟨[], 2, [[FP.nan, FP.fin 1]]⟩ : BatchedArray FP) none none) = true :=
  labeldiff_lambdaweight_nan_propagation ⟨[], 2, [[FP.fin 0, FP.fin 0]]⟩
    ⟨[], 2, [[FP.nan, FP.fin 1]]⟩ none none 0 0 (by decide) (by decide) (by decide)

/-- C9 counterexample: `labels = [∞, ∞]` contains no `nan`, yet the
output entry at `(0, 1)` is `∞ - ∞ = nan`, which is not non-negative
under the IEEE-754 comparison `0 <= x`.  The claim as stated (no `nan`
entries suffices for non-negativity) is therefore false. -/
theorem labeldiff_lambdaweight_nonneg_fails_at_inf :
    (∀ l ∈ (⟨[], 2, [[FP.inf, FP.inf]]⟩ : BatchedArray FP).lists, ∀ x ∈ l, x ≠ FP.nan) ∧
    FP.le (.fin 0)
        (lw_entry (labeldiff_lambdaweight (⟨[], 2, [[FP.fin 0, FP.fin 0]]⟩ : BatchedArray FP)
            (⟨[], 2, [[FP.inf, FP.inf]]⟩ : BatchedArray FP) none none) (.fin 0) 0 0 1) =
      false := by
  exact ⟨by decide, by decide⟩

/-- A finite `FP` value is of the form `fin a`. -/
theorem FP.isFinite_iff (x : FP) : x.isFinite = true ↔ ∃ a, x = .fin a := by
  cases x <;> simp [FP.isFinite]

/-- C9 amended: for every labels array all of whose entries are finite
(no `nan` and no infinities), every entry of the output is
non-negative under the IEEE-754 comparison `0 <= x`. -/
theorem labeldiff_lambdaweight_nonneg_of_finite
    (scores labels : BatchedArray FP) (where_ : Option (BatchedArray Bool))
    (weights : Option (BatchedArray FP))
    (hfin : ∀ l ∈ labels.lists, ∀ x ∈ l, x.isFinite = true) (b i j : Nat) :
    FP.le (.fin 0)
      (lw_entry (labeldiff_lambdaweight scores labels where_ weights) (.fin 0) b i j) =
      true := by
  have hle0 : FP.le (.fin 0) (.fin 0) = true := decide_eq_true (le_refl (0 : ℚ))
  rcases Nat.lt_or_ge b labels.lists.length with hb | hb
  · rcases Nat.lt_or_ge i (labels.lists.getD b []).length with hi | hi
    · rcases Nat.lt_or_ge j (labels.lists.getD b []).length with hj | hj
      · rw [lw_entry_eq_of_lt scores labels where_ weights (.fin 0) (.fin 0) b i j hb hi hj]
        have hmem : labels.lists.getD b [] ∈ labels.lists := by
          rw [List.getD_eq_getElem _ _ hb]; exact List.getElem_mem hb
        have hxm : (labels.lists.getD b []).getD i (.fin 0) ∈ labels.lists.getD b [] := by
          rw [List.getD_eq_getElem _ _ hi]; exact List.getElem_mem hi
        have hym : (labels.lists.getD b []).getD j (.fin 0) ∈ labels.lists.getD b [] := by
          rw [List.getD_eq_getElem _ _ hj]; exact List.getElem_mem hj
        obtain ⟨a1, ha1⟩ := (FP.isFinite_iff _).mp (hfin _ hmem _ hxm)
        obtain ⟨a2, ha2⟩ := (FP.isFinite_iff _).mp (hfin _ hmem _ hym)
        rw [ha1, ha2, FP.sub_fin_fin, FP.jabs_fin, FP.le_fin_fin]
        exact decide_eq_true (abs_nonneg _)
      · rw [lw_entry_default_of_col_ge scores labels where_ weights (.fin 0) b i j hb hi hj]
        exact hle0
    · rw [lw_entry_default_of_row_ge scores labels where_ weights (.fin 0) b i j hb hi]
      exact hle0
  · rw [lw_entry_default_of_batch_ge scores labels where_ weights (.fin 0) b i j hb]
    exact hle0

/-- Witness for C9's amended statement: all-finite labels `[1, 3]`. -/
theorem labeldiff_lambdaweight_nonneg_of_finite_witness :
    FP.le (.fin 0)
      (lw_entry (labeldiff_lambdaweight (⟨[], 2, [[FP.fin 0, FP.fin 0]]⟩ : BatchedArray FP)
          (⟨[], 2, [[FP.fin 1, FP.fin 3]]⟩ : BatchedArray FP) none none) (.fin 0) 0 0 1) =
      true :=
  labeldiff_lambdaweight_nonneg_of_finite ⟨[], 2, [[FP.fin 0, FP.fin 0]]⟩
    ⟨[], 2, [[FP.fin 1, FP.fin 3]]⟩ none none (by decide) 0 0 1
